import Mathlib

/-!
Shallow embedding of the BufferedFilesystem staged-filesystem component
(src/unnamed/part_000 of the relay repository).

The staged buffer is a JS `Map<string, ?string>` (insertion-ordered, one
entry per key, `null` marking a pending deletion); we model it as an
association list `List (String × Option String)` with JS `Map.set`
semantics (`mapSet`).  The real filesystem (node `fs`, an external
collaborator) is modelled as a pair of functions: file contents
`String → Option String` and directory existence `String → Bool`.
JS exceptions (`invariant(...)` failures and node `fs` errors such as
ENOENT) are modelled with `Except FsError`.
-/

/-- Errors: `invariantViolation` models a thrown `invariant(...)` failure
(a programming-contract error), `notFound` models a node `fs` ENOENT
error, `alreadyExists` models EEXIST from `fs.mkdirSync`. -/
inductive FsError where
  | invariantViolation (msg : String)
  | notFound (path : String)
  | alreadyExists (path : String)
deriving DecidableEq

/-- The real on-disk state: file contents and existing directories. -/
structure Disk where
  files : String → Option String
  dirs : String → Bool

/-- Content of a file on disk, if present. -/
def Disk.read (d : Disk) (p : String) : Option String :=
  d.files p

/-- Model of `fs.existsSync`. -/
def fsExistsSync (d : Disk) (p : String) : Bool :=
  (d.read p).isSome

/-- Model of `fs.readFileSync` (throws ENOENT when the path is absent). -/
def fsReadFileSync (d : Disk) (p : String) : Except FsError String :=
  match d.read p with
  | some s => Except.ok s
  | none => Except.error (FsError.notFound p)

/-- Model of `fs.writeFileSync`. -/
def fsWriteFileSync (d : Disk) (p c : String) : Disk :=
  { d with files := fun q => if q = p then some c else d.files q }

/-- Model of `fs.unlinkSync` (throws ENOENT when the path is absent). -/
def fsUnlinkSync (d : Disk) (p : String) : Except FsError Disk :=
  if (d.read p).isSome then
    Except.ok { d with files := fun q => if q = p then none else d.files q }
  else
    Except.error (FsError.notFound p)

/-- Model of `fs.mkdirSync` (throws EEXIST when the directory exists). -/
def fsMkdirSync (d : Disk) (p : String) : Except FsError Disk :=
  if d.dirs p then Except.error (FsError.alreadyExists p)
  else Except.ok { d with dirs := fun q => if q = p then true else d.dirs q }

/-- Model of `fs.statSync` (throws ENOENT when the path is absent). -/
structure FileStat where
  isDirectory : Bool
deriving DecidableEq

def fsStatSync (d : Disk) (p : String) : Except FsError FileStat :=
  if d.dirs p then Except.ok ⟨true⟩
  else if (d.read p).isSome then Except.ok ⟨false⟩
  else Except.error (FsError.notFound p)

/-- The staged buffer: a JS `Map<string, ?string>` as an insertion-ordered
association list; `none` is JS `null`, marking a pending deletion. -/
abbrev Buffer := List (String × Option String)

/-- JS `Map.has`. -/
def mapHas (m : Buffer) (k : String) : Bool :=
  m.any (fun kv => kv.1 == k)

/-- JS `Map.get` (outer `none` is JS `undefined`: key absent). -/
def mapGet (m : Buffer) (k : String) : Option (Option String) :=
  (m.find? (fun kv => kv.1 == k)).map (fun kv => kv.2)

/-- JS `Map.set`: replace in place when the key is present (keeping its
insertion position), otherwise append. -/
def mapSet (m : Buffer) (k : String) (v : Option String) : Buffer :=
  if mapHas m k then m.map (fun kv => if kv.1 == k then (k, v) else kv)
  else m ++ [(k, v)]

/-- Key list of a buffer. -/
def bufKeys (m : Buffer) : List String :=
  m.map (fun kv => kv.1)

/-- JS `Boolean(x)` applied to a `?string` value: `null`/`undefined` and
the empty string are falsy. -/
def jsTruthy : Option String → Bool
  | none => false
  | some s => !s.isEmpty

/-- The BufferedFilesystem state: the staged buffer and the committed flag. -/
structure BufferedFilesystem where
  buffer : Buffer := []
  committed : Bool := false
deriving DecidableEq

def noOpsAfterCommitMsg : String :=
  "BufferedFilesystem: no operations allowed after commit()."

def readDeletedMsg : String :=
  "BufferedFilesystem: trying to read deleted file."

/-- `_assertNotComitted`: `invariant(!this.committed, ...)`. -/
def BufferedFilesystem.assertNotComitted (bfs : BufferedFilesystem) :
    Except FsError Unit :=
  if bfs.committed then Except.error (FsError.invariantViolation noOpsAfterCommitMsg)
  else Except.ok ()

/-- One physical filesystem effect performed by `commit`. -/
inductive FsEvent where
  | write (p c : String)
  | unlink (p : String)
deriving DecidableEq

/-- The path an event touches. -/
def FsEvent.path : FsEvent → String
  | .write p _ => p
  | .unlink p => p

/-- The loop body of `commit`: iterate the buffer in insertion order,
threading the real disk (so content comparisons read the current,
not a snapshotted, disk state) and collecting `added`, `removed`, the
final disk, and the trace of physical effects. -/
def commitGo : Buffer → Disk →
    Except FsError (List String × List String × Disk × List FsEvent)
  | [], d => Except.ok ([], [], d, [])
  | (p, none) :: rest, d =>
    match fsUnlinkSync d p with
    | .error e => .error e
    | .ok d2 =>
      match commitGo rest d2 with
      | .error e => .error e
      | .ok (a, r, d3, evs) => .ok (a, p :: r, d3, FsEvent.unlink p :: evs)
  | (p, some s) :: rest, d =>
    if (if fsExistsSync d p then d.read p else none) ≠ some s then
      match commitGo rest (fsWriteFileSync d p s) with
      | .error e => .error e
      | .ok (a, r, d3, evs) => .ok (p :: a, r, d3, FsEvent.write p s :: evs)
    else
      commitGo rest d

/-- Result of a successful `commit`: the frozen state, the final disk,
the `added`/`removed` lists, the invocations of the source-control hook,
and the trace of physical effects. -/
structure CommitResult where
  fs : BufferedFilesystem
  disk : Disk
  added : List String
  removed : List String
  hookCalls : List (List String × List String)
  events : List FsEvent

/-- `commit(sourceControl)`: assert not committed, set the flag, apply the
buffer to the real disk, and (when a hook is configured) invoke
`sourceControl.addRemove(added, removed)` with exactly the computed lists. -/
def BufferedFilesystem.commit (bfs : BufferedFilesystem) (d : Disk)
    (sourceControl : Option Unit) : Except FsError CommitResult :=
  match bfs.assertNotComitted with
  | .error e => .error e
  | .ok _ =>
    match commitGo bfs.buffer d with
    | .error e => .error e
    | .ok (added, removed, d2, evs) =>
      .ok { fs := { bfs with committed := true }
            disk := d2
            added := added
            removed := removed
            hookCalls := if sourceControl.isSome then [(added, removed)] else []
            events := evs }

/-- `hasChanges()`: `this.buffer.size > 0`. -/
def BufferedFilesystem.hasChanges (bfs : BufferedFilesystem) :
    Except FsError Bool :=
  match bfs.assertNotComitted with
  | .error e => .error e
  | .ok _ => .ok (!bfs.buffer.isEmpty)

/-- Loop of `getAddedRemovedFiles`: pending deletions go to `removed`;
pending writes go to `added` exactly when the path is absent on disk. -/
def garGo : Buffer → Disk → List String × List String
  | [], _ => ([], [])
  | (p, none) :: rest, d => ((garGo rest d).1, p :: (garGo rest d).2)
  | (p, some _) :: rest, d =>
    if fsExistsSync d p then garGo rest d
    else (p :: (garGo rest d).1, (garGo rest d).2)

/-- `getAddedRemovedFiles()`. -/
def BufferedFilesystem.getAddedRemovedFiles (bfs : BufferedFilesystem)
    (d : Disk) : Except FsError (List String × List String) :=
  match bfs.assertNotComitted with
  | .error e => .error e
  | .ok _ => .ok (garGo bfs.buffer d)

/-- `existsSync(path)`: staged entry (via JS truthiness, so a staged `null`
and a staged empty string are both reported absent), else the real disk. -/
def BufferedFilesystem.existsSync (bfs : BufferedFilesystem) (d : Disk)
    (p : String) : Except FsError Bool :=
  match bfs.assertNotComitted with
  | .error e => .error e
  | .ok _ =>
    if mapHas bfs.buffer p then .ok (jsTruthy (Option.join (mapGet bfs.buffer p)))
    else .ok (fsExistsSync d p)

/-- `mkdirSync(path)`: a direct pass-through to `fs.mkdirSync`. -/
def BufferedFilesystem.mkdirSync (bfs : BufferedFilesystem) (d : Disk)
    (p : String) : Except FsError Disk :=
  match bfs.assertNotComitted with
  | .error e => .error e
  | .ok _ => fsMkdirSync d p

/-- `readFileSync(path)`: staged value when present (an `invariant` failure
when the staged value is `null`), else `fs.readFileSync`. -/
def BufferedFilesystem.readFileSync (bfs : BufferedFilesystem) (d : Disk)
    (p : String) : Except FsError String :=
  match bfs.assertNotComitted with
  | .error e => .error e
  | .ok _ =>
    if mapHas bfs.buffer p then
      match Option.join (mapGet bfs.buffer p) with
      | none => .error (FsError.invariantViolation readDeletedMsg)
      | some data => .ok data
    else fsReadFileSync d p

/-- `statSync(path)`: a direct pass-through to `fs.statSync`. -/
def BufferedFilesystem.statSync (bfs : BufferedFilesystem) (d : Disk)
    (p : String) : Except FsError FileStat :=
  match bfs.assertNotComitted with
  | .error e => .error e
  | .ok _ => fsStatSync d p

/-- `unlinkSync(path)`: stage a deletion (`buffer.set(path, null)`). -/
def BufferedFilesystem.unlinkSync (bfs : BufferedFilesystem) (p : String) :
    Except FsError BufferedFilesystem :=
  match bfs.assertNotComitted with
  | .error e => .error e
  | .ok _ => .ok { bfs with buffer := mapSet bfs.buffer p none }

/-- `writeFileSync(filename, data)`: stage a write (`buffer.set(filename, data)`). -/
def BufferedFilesystem.writeFileSync (bfs : BufferedFilesystem)
    (p data : String) : Except FsError BufferedFilesystem :=
  match bfs.assertNotComitted with
  | .error e => .error e
  | .ok _ => .ok { bfs with buffer := mapSet bfs.buffer p (some data) }

/-- A staging-phase operation of the Filesystem interface. -/
inductive StagingOp where
  | writeOp (p c : String)
  | unlinkOp (p : String)
  | readOp (p : String)
  | existsOp (p : String)
  | mkdirOp (p : String)
deriving DecidableEq

/-- Whether an operation stages a mutation (a write or an unlink). -/
def StagingOp.isMutation : StagingOp → Bool
  | .writeOp _ _ => true
  | .unlinkOp _ => true
  | _ => false

/-- Whether an operation is `mkdirSync`. -/
def StagingOp.isMkdir : StagingOp → Bool
  | .mkdirOp _ => true
  | _ => false

/-- Run one staging operation against the buffered filesystem and the real
disk, returning the successor states (read results are discarded). -/
def runOp (st : BufferedFilesystem × Disk) :
    StagingOp → Except FsError (BufferedFilesystem × Disk)
  | .writeOp p c =>
    match st.1.writeFileSync p c with
    | .error e => .error e
    | .ok b => .ok (b, st.2)
  | .unlinkOp p =>
    match st.1.unlinkSync p with
    | .error e => .error e
    | .ok b => .ok (b, st.2)
  | .readOp p =>
    match st.1.readFileSync st.2 p with
    | .error e => .error e
    | .ok _ => .ok st
  | .existsOp p =>
    match st.1.existsSync st.2 p with
    | .error e => .error e
    | .ok _ => .ok st
  | .mkdirOp p =>
    match st.1.mkdirSync st.2 p with
    | .error e => .error e
    | .ok d => .ok (st.1, d)

/-- Run a sequence of staging operations. -/
def runOps (st : BufferedFilesystem × Disk) :
    List StagingOp → Except FsError (BufferedFilesystem × Disk)
  | [] => .ok st
  | op :: rest =>
    match runOp st op with
    | .error e => .error e
    | .ok st2 => runOps st2 rest

/-! ### Buffer (JS Map) lemmas -/

theorem bufKeys_nil : bufKeys [] = [] := rfl

theorem bufKeys_cons (a : String) (b : Option String) (rest : Buffer) :
    bufKeys ((a, b) :: rest) = a :: bufKeys rest := rfl

theorem mem_bufKeys (m : Buffer) (k : String) :
    k ∈ bufKeys m ↔ ∃ v, (k, v) ∈ m := by
  constructor
  · intro h
    obtain ⟨⟨a, b⟩, hmem, hk⟩ := List.mem_map.mp h
    exact ⟨b, by rwa [show a = k from hk] at hmem⟩
  · rintro ⟨v, hv⟩
    exact List.mem_map.mpr ⟨(k, v), hv, rfl⟩

theorem mapHas_iff (m : Buffer) (k : String) :
    mapHas m k = true ↔ k ∈ bufKeys m := by
  rw [mem_bufKeys]
  constructor
  · intro h
    obtain ⟨⟨a, b⟩, hmem, hk⟩ := List.any_eq_true.mp h
    exact ⟨b, by rwa [show a = k from by simpa using hk] at hmem⟩
  · rintro ⟨v, hv⟩
    exact List.any_eq_true.mpr ⟨(k, v), hv, by simp⟩

theorem mapGet_cons_self (a : String) (b : Option String) (rest : Buffer) :
    mapGet ((a, b) :: rest) a = some b := by
  simp [mapGet, List.find?_cons]

theorem mapGet_cons_ne (a k : String) (b : Option String) (rest : Buffer)
    (h : a ≠ k) : mapGet ((a, b) :: rest) k = mapGet rest k := by
  simp [mapGet, List.find?_cons, h]

theorem mapGet_eq_none_iff (m : Buffer) (k : String) :
    mapGet m k = none ↔ k ∉ bufKeys m := by
  induction m with
  | nil => simp [mapGet, bufKeys]
  | cons kv rest ih =>
    obtain ⟨a, b⟩ := kv
    rw [bufKeys_cons]
    by_cases hak : a = k
    · subst hak
      simp [mapGet_cons_self]
    · rw [mapGet_cons_ne a k b rest hak, ih]
      simp [List.mem_cons]
      tauto

theorem mapGet_eq_some_mem (m : Buffer) (k : String) (v : Option String)
    (h : mapGet m k = some v) : (k, v) ∈ m := by
  induction m with
  | nil => simp [mapGet] at h
  | cons kv rest ih =>
    obtain ⟨a, b⟩ := kv
    by_cases hak : a = k
    · subst hak
      rw [mapGet_cons_self] at h
      rw [show v = b from (Option.some.inj h).symm]
      exact List.mem_cons_self _ _
    · rw [mapGet_cons_ne a k b rest hak] at h
      exact List.mem_cons_of_mem _ (ih h)

theorem mem_mapGet (m : Buffer) (k : String) (v : Option String)
    (hnd : (bufKeys m).Nodup) (h : (k, v) ∈ m) : mapGet m k = some v := by
  induction m with
  | nil => simp at h
  | cons kv rest ih =>
    obtain ⟨a, b⟩ := kv
    rw [bufKeys_cons] at hnd
    obtain ⟨hna, hnd2⟩ := List.nodup_cons.mp hnd
    rcases List.mem_cons.mp h with heq | hmem
    · obtain ⟨h1, h2⟩ := Prod.mk.injEq .. ▸ heq
      subst h1
      subst h2
      exact mapGet_cons_self k v rest
    · have hak : a ≠ k := by
        intro hc
        subst hc
        exact hna ((mem_bufKeys rest a).mpr ⟨v, hmem⟩)
      rw [mapGet_cons_ne a k b rest hak]
      exact ih hnd2 hmem

theorem bufKeys_mapSet_of_has (m : Buffer) (k : String) (v : Option String)
    (h : mapHas m k = true) : bufKeys (mapSet m k v) = bufKeys m := by
  unfold mapSet
  rw [if_pos h]
  unfold bufKeys
  rw [List.map_map]
  apply List.map_congr_left
  intro kv _
  by_cases hk : kv.1 = k
  · simp [hk]
  · simp [hk]

theorem bufKeys_mapSet_of_not_has (m : Buffer) (k : String) (v : Option String)
    (h : ¬mapHas m k = true) : bufKeys (mapSet m k v) = bufKeys m ++ [k] := by
  unfold mapSet
  rw [if_neg h]
  simp [bufKeys]

theorem mapSet_nodup (m : Buffer) (k : String) (v : Option String)
    (hnd : (bufKeys m).Nodup) : (bufKeys (mapSet m k v)).Nodup := by
  by_cases h : mapHas m k = true
  · rwa [bufKeys_mapSet_of_has m k v h]
  · rw [bufKeys_mapSet_of_not_has m k v h]
    have hk : k ∉ bufKeys m := fun hc => h ((mapHas_iff m k).mpr hc)
    simp [List.nodup_append, hnd, hk]

theorem mapGet_mapSet_self (m : Buffer) (k : String) (v : Option String) :
    mapGet (mapSet m k v) k = some v := by
  unfold mapSet
  by_cases h : mapHas m k = true
  · rw [if_pos h]
    rw [mapHas_iff, mem_bufKeys] at h
    obtain ⟨w, hw⟩ := h
    induction m with
    | nil => simp at hw
    | cons kv rest ih =>
      obtain ⟨a, b⟩ := kv
      by_cases hak : a = k
      · subst hak
        simpa using mapGet_cons_self a v (rest.map fun kv => if kv.1 == a then (a, v) else kv)
      · rcases List.mem_cons.mp hw with heq | hmem
        · exact absurd (congrArg Prod.fst heq).symm hak
        · rw [show List.map (fun kv => if kv.1 == k then (k, v) else kv) ((a, b) :: rest)
              = (a, b) :: rest.map (fun kv => if kv.1 == k then (k, v) else kv) from by
            simp [hak]]
          rw [mapGet_cons_ne a k b _ hak]
          exact ih hmem
  · rw [if_neg h]
    have hk : k ∉ bufKeys m := fun hc => h ((mapHas_iff m k).mpr hc)
    induction m with
    | nil => exact mapGet_cons_self k v []
    | cons kv rest ih =>
      obtain ⟨a, b⟩ := kv
      rw [bufKeys_cons] at hk
      have hak : a ≠ k := fun hc => hk (hc ▸ List.mem_cons_self a _)
      rw [List.cons_append, mapGet_cons_ne a k b _ hak]
      exact ih (fun hc => h (by
        rw [mapHas_iff, bufKeys_cons]
        exact List.mem_cons_of_mem a ((mapHas_iff rest k).mp hc)))
        (fun hc => hk (List.mem_cons_of_mem a hc))

theorem mapSet_not_isEmpty (m : Buffer) (k : String) (v : Option String) :
    (mapSet m k v).isEmpty = false := by
  unfold mapSet
  by_cases h : mapHas m k = true
  · rw [if_pos h]
    cases m with
    | nil => simp [mapHas] at h
    | cons kv rest => simp
  · rw [if_neg h]
    cases m <;> simp

/-! ### Real-disk frame lemmas -/

theorem read_fsWriteFileSync (d : Disk) (p c q : String) :
    (fsWriteFileSync d p c).read q = if q = p then some c else d.read q := rfl

theorem fsUnlinkSync_ok_read (d d2 : Disk) (p : String)
    (h : fsUnlinkSync d p = Except.ok d2) (q : String) :
    d2.read q = if q = p then none else d.read q := by
  unfold fsUnlinkSync at h
  split at h
  · rw [show d2 = { d with files := fun q => if q = p then none else d.files q }
      from (Except.ok.inj h).symm]
    rfl
  · exact absurd h (by simp)

/-! ### commit loop lemmas -/

theorem currentData_eq (d : Disk) (p : String) :
    (if fsExistsSync d p then d.read p else none) = d.read p := by
  unfold fsExistsSync
  cases hd : d.read p <;> simp [hd]

theorem commitGo_nil (d : Disk) : commitGo [] d = Except.ok ([], [], d, []) := rfl

theorem commitGo_cons_none (q : String) (rest : Buffer) (d : Disk) :
    commitGo ((q, none) :: rest) d
      = match fsUnlinkSync d q with
        | .error e => .error e
        | .ok d2 =>
          match commitGo rest d2 with
          | .error e => .error e
          | .ok (a, r, d3, evs) => .ok (a, q :: r, d3, FsEvent.unlink q :: evs) := rfl

theorem commitGo_cons_some_skip (q s : String) (rest : Buffer) (d : Disk)
    (h : d.read q = some s) : commitGo ((q, some s) :: rest) d = commitGo rest d := by
  have heq : commitGo ((q, some s) :: rest) d
      = if (if fsExistsSync d q then d.read q else none) ≠ some s then
          match commitGo rest (fsWriteFileSync d q s) with
          | .error e => .error e
          | .ok (a, r, d3, evs) => .ok (q :: a, r, d3, FsEvent.write q s :: evs)
        else commitGo rest d := rfl
  rw [heq, currentData_eq, h]
  simp

theorem commitGo_cons_some_write (q s : String) (rest : Buffer) (d : Disk)
    (h : d.read q ≠ some s) :
    commitGo ((q, some s) :: rest) d
      = match commitGo rest (fsWriteFileSync d q s) with
        | .error e => .error e
        | .ok (a, r, d3, evs) => .ok (q :: a, r, d3, FsEvent.write q s :: evs) := by
  have heq : commitGo ((q, some s) :: rest) d
      = if (if fsExistsSync d q then d.read q else none) ≠ some s then
          match commitGo rest (fsWriteFileSync d q s) with
          | .error e => .error e
          | .ok (a, r, d3, evs) => .ok (q :: a, r, d3, FsEvent.write q s :: evs)
        else commitGo rest d := rfl
  rw [heq, currentData_eq, if_pos h]

theorem countP_path_eq_zero (evs : List FsEvent) (p : String)
    (h : ∀ ev ∈ evs, FsEvent.path ev ≠ p) :
    evs.countP (fun ev => ev.path == p) = 0 := by
  rw [List.countP_eq_zero]
  intro ev hev
  simp [h ev hev]

/-- Combined specification of the commit loop on a successful run, for a
buffer with pairwise-distinct keys (the invariant of a JS Map):
characterizations of `added`, `removed`, the final disk, and the physical
effect trace. -/
theorem commitGo_ok_spec (buf : Buffer) (d : Disk) (a r : List String)
    (d2 : Disk) (e : List FsEvent)
    (hnd : (bufKeys buf).Nodup)
    (h : commitGo buf d = Except.ok (a, r, d2, e)) :
    (∀ p, p ∈ a ↔ ∃ c, (p, some c) ∈ buf ∧ d.read p ≠ some c) ∧
    (∀ p, p ∈ r ↔ (p, (none : Option String)) ∈ buf) ∧
    (∀ x, x ∉ bufKeys buf → d2.read x = d.read x) ∧
    (∀ p c, (p, some c) ∈ buf → d2.read p = some c) ∧
    (∀ p, (p, (none : Option String)) ∈ buf → d2.read p = none) ∧
    (∀ ev ∈ e, FsEvent.path ev ∈ bufKeys buf) ∧
    (∀ p, e.countP (fun ev => ev.path == p) ≤ 1) ∧
    (∀ p c, (p, some c) ∈ buf → d.read p = some c →
      ∀ ev ∈ e, FsEvent.path ev ≠ p) ∧
    (∀ p, (p, (none : Option String)) ∈ buf → FsEvent.unlink p ∈ e) := by
  induction buf generalizing d a r d2 e with
  | nil =>
    rw [commitGo_nil] at h
    simp at h
    obtain ⟨ha, hr, hd2, he⟩ := h
    subst ha
    subst hr
    subst hd2
    subst he
    simp [bufKeys]
  | cons kv rest ih =>
    obtain ⟨q, dat⟩ := kv
    rw [bufKeys_cons] at hnd
    obtain ⟨hq, hnd2⟩ := List.nodup_cons.mp hnd
    cases dat with
    | none =>
      rw [commitGo_cons_none] at h
      cases hunl : fsUnlinkSync d q with
      | error err =>
        simp only [hunl] at h
        exact Except.noConfusion h
      | ok dU =>
        simp only [hunl] at h
        cases hrec : commitGo rest dU with
        | error err =>
          simp only [hrec] at h
          exact Except.noConfusion h
        | ok res =>
          obtain ⟨a1, r1, d3, evs1⟩ := res
          simp only [hrec] at h
          simp at h
          obtain ⟨ha, hr, hd2, he⟩ := h
          subst ha
          subst hr
          subst hd2
          subst he
          have hUread : ∀ x, dU.read x = if x = q then none else d.read x :=
            fsUnlinkSync_ok_read d dU q hunl
          obtain ⟨IH1, IH2, IH3, IH4, IH5, IH6, IH7, IH8, IH9⟩ :=
            ih dU a1 r1 d3 evs1 hnd2 hrec
          refine ⟨?_, ?_, ?_, ?_, ?_, ?_, ?_, ?_, ?_⟩
          · intro p
            rw [IH1 p]
            constructor
            · rintro ⟨c, hc, hcd⟩
              have hpq : p ≠ q := by
                rintro rfl
                exact hq ((mem_bufKeys rest p).mpr ⟨some c, hc⟩)
              rw [hUread p, if_neg hpq] at hcd
              exact ⟨c, List.mem_cons_of_mem _ hc, hcd⟩
            · rintro ⟨c, hc, hcd⟩
              rcases List.mem_cons.mp hc with heq | hmem
              · simp at heq
              · have hpq : p ≠ q := by
                  rintro rfl
                  exact hq ((mem_bufKeys rest p).mpr ⟨some c, hmem⟩)
                exact ⟨c, hmem, by rw [hUread p, if_neg hpq]; exact hcd⟩
          · intro p
            constructor
            · intro hp
              rcases List.mem_cons.mp hp with rfl | hp1
              · exact List.mem_cons_self _ _
              · exact List.mem_cons_of_mem _ ((IH2 p).mp hp1)
            · intro hp
              rcases List.mem_cons.mp hp with heq | hmem
              · rw [show p = q from congrArg Prod.fst heq]
                exact List.mem_cons_self _ _
              · exact List.mem_cons_of_mem _ ((IH2 p).mpr hmem)
          · intro x hx
            rw [bufKeys_cons] at hx
            have hxq : x ≠ q := fun hc => hx (hc ▸ List.mem_cons_self _ _)
            have hxr : x ∉ bufKeys rest := fun hc => hx (List.mem_cons_of_mem _ hc)
            rw [IH3 x hxr, hUread x, if_neg hxq]
          · intro p c hp
            rcases List.mem_cons.mp hp with heq | hmem
            · simp at heq
            · exact IH4 p c hmem
          · intro p hp
            rcases List.mem_cons.mp hp with heq | hmem
            · rw [show p = q from congrArg Prod.fst heq, IH3 q hq, hUread q, if_pos rfl]
            · exact IH5 p hmem
          · intro ev hev
            rw [bufKeys_cons]
            rcases List.mem_cons.mp hev with rfl | hev1
            · exact List.mem_cons_self _ _
            · exact List.mem_cons_of_mem _ (IH6 ev hev1)
          · intro p
            rw [List.countP_cons]
            by_cases hpq : q = p
            · have hzero := countP_path_eq_zero evs1 p
                (fun ev hev hc => hq (hpq.symm ▸ (hc ▸ IH6 ev hev)))
              rw [hzero]
              simp [FsEvent.path, hpq]
            · have hfalse : ((fun ev => FsEvent.path ev == p) (FsEvent.unlink q)) = false := by
                simp [FsEvent.path]
                exact hpq
              simp only [hfalse]
              simpa using IH7 p
          · intro p c hp hrd
            rcases List.mem_cons.mp hp with heq | hmem
            · simp at heq
            · have hpq : p ≠ q := by
                rintro rfl
                exact hq ((mem_bufKeys rest p).mpr ⟨some c, hmem⟩)
              intro ev hev
              rcases List.mem_cons.mp hev with rfl | hev1
              · intro hc
                exact hpq ((show FsEvent.path (FsEvent.unlink q) = p from hc).symm)
              · exact IH8 p c hmem (by rw [hUread p, if_neg hpq]; exact hrd) ev hev1
          · intro p hp
            rcases List.mem_cons.mp hp with heq | hmem
            · rw [show p = q from congrArg Prod.fst heq]
              exact List.mem_cons_self _ _
            · exact List.mem_cons_of_mem _ (IH9 p hmem)
    | some s =>
      by_cases hread : d.read q = some s
      · rw [commitGo_cons_some_skip q s rest d hread] at h
        obtain ⟨IH1, IH2, IH3, IH4, IH5, IH6, IH7, IH8, IH9⟩ :=
          ih d a r d2 e hnd2 h
        refine ⟨?_, ?_, ?_, ?_, ?_, ?_, ?_, ?_, ?_⟩
        · intro p
          rw [IH1 p]
          constructor
          · rintro ⟨c, hc, hcd⟩
            exact ⟨c, List.mem_cons_of_mem _ hc, hcd⟩
          · rintro ⟨c, hc, hcd⟩
            rcases List.mem_cons.mp hc with heq | hmem
            · have h1 : p = q := congrArg Prod.fst heq
              have h2 : some c = some s := congrArg Prod.snd heq
              exact absurd (by rw [h1, hread, ← h2]) hcd
            · exact ⟨c, hmem, hcd⟩
        · intro p
          rw [IH2 p]
          constructor
          · exact fun hm => List.mem_cons_of_mem _ hm
          · intro hm
            rcases List.mem_cons.mp hm with heq | hmem
            · simp at heq
            · exact hmem
        · intro x hx
          rw [bufKeys_cons] at hx
          exact IH3 x (fun hc => hx (List.mem_cons_of_mem _ hc))
        · intro p c hp
          rcases List.mem_cons.mp hp with heq | hmem
          · rw [show p = q from congrArg Prod.fst heq, IH3 q hq, hread]
            exact (congrArg Prod.snd heq).symm
          · exact IH4 p c hmem
        · intro p hp
          rcases List.mem_cons.mp hp with heq | hmem
          · simp at heq
          · exact IH5 p hmem
        · intro ev hev
          rw [bufKeys_cons]
          exact List.mem_cons_of_mem _ (IH6 ev hev)
        · exact IH7
        · intro p c hp hrd
          rcases List.mem_cons.mp hp with heq | hmem
          · intro ev hev hc
            apply hq
            have hin := IH6 ev hev
            rw [hc, show p = q from congrArg Prod.fst heq] at hin
            exact hin
          · exact IH8 p c hmem hrd
        · intro p hp
          rcases List.mem_cons.mp hp with heq | hmem
          · simp at heq
          · exact IH9 p hmem
      · rw [commitGo_cons_some_write q s rest d hread] at h
        cases hrec : commitGo rest (fsWriteFileSync d q s) with
        | error err =>
          simp only [hrec] at h
          exact Except.noConfusion h
        | ok res =>
          obtain ⟨a1, r1, d3, evs1⟩ := res
          simp only [hrec] at h
          simp at h
          obtain ⟨ha, hr, hd2, he⟩ := h
          subst ha
          subst hr
          subst hd2
          subst he
          have hWread : ∀ x, (fsWriteFileSync d q s).read x
              = if x = q then some s else d.read x :=
            fun x => read_fsWriteFileSync d q s x
          obtain ⟨IH1, IH2, IH3, IH4, IH5, IH6, IH7, IH8, IH9⟩ :=
            ih (fsWriteFileSync d q s) a1 r1 d3 evs1 hnd2 hrec
          refine ⟨?_, ?_, ?_, ?_, ?_, ?_, ?_, ?_, ?_⟩
          · intro p
            constructor
            · intro hp
              rcases List.mem_cons.mp hp with rfl | hp1
              · exact ⟨s, List.mem_cons_self _ _, hread⟩
              · obtain ⟨c, hc, hcd⟩ := (IH1 p).mp hp1
                have hpq : p ≠ q := by
                  rintro rfl
                  exact hq ((mem_bufKeys rest p).mpr ⟨some c, hc⟩)
                rw [hWread p, if_neg hpq] at hcd
                exact ⟨c, List.mem_cons_of_mem _ hc, hcd⟩
            · rintro ⟨c, hc, hcd⟩
              rcases List.mem_cons.mp hc with heq | hmem
              · rw [show p = q from congrArg Prod.fst heq]
                exact List.mem_cons_self _ _
              · have hpq : p ≠ q := by
                  rintro rfl
                  exact hq ((mem_bufKeys rest p).mpr ⟨some c, hmem⟩)
                exact List.mem_cons_of_mem _
                  ((IH1 p).mpr ⟨c, hmem, by rw [hWread p, if_neg hpq]; exact hcd⟩)
          · intro p
            rw [IH2 p]
            constructor
            · exact fun hm => List.mem_cons_of_mem _ hm
            · intro hm
              rcases List.mem_cons.mp hm with heq | hmem
              · simp at heq
              · exact hmem
          · intro x hx
            rw [bufKeys_cons] at hx
            have hxq : x ≠ q := fun hc => hx (hc ▸ List.mem_cons_self _ _)
            rw [IH3 x (fun hc => hx (List.mem_cons_of_mem _ hc)), hWread x, if_neg hxq]
          · intro p c hp
            rcases List.mem_cons.mp hp with heq | hmem
            · rw [show p = q from congrArg Prod.fst heq, IH3 q hq, hWread q, if_pos rfl]
              exact (congrArg Prod.snd heq).symm
            · exact IH4 p c hmem
          · intro p hp
            rcases List.mem_cons.mp hp with heq | hmem
            · simp at heq
            · exact IH5 p hmem
          · intro ev hev
            rw [bufKeys_cons]
            rcases List.mem_cons.mp hev with rfl | hev1
            · exact List.mem_cons_self _ _
            · exact List.mem_cons_of_mem _ (IH6 ev hev1)
          · intro p
            rw [List.countP_cons]
            by_cases hpq : q = p
            · have hzero := countP_path_eq_zero evs1 p
                (fun ev hev hc => hq (hpq.symm ▸ (hc ▸ IH6 ev hev)))
              rw [hzero]
              simp [FsEvent.path, hpq]
            · have hfalse : ((fun ev => FsEvent.path ev == p) (FsEvent.write q s)) = false := by
                simp [FsEvent.path]
                exact hpq
              simp only [hfalse]
              simpa using IH7 p
          · intro p c hp hrd
            rcases List.mem_cons.mp hp with heq | hmem
            · have h1 : p = q := congrArg Prod.fst heq
              have h2 : some c = some s := congrArg Prod.snd heq
              exact absurd (by rw [← h1, hrd, h2] : d.read q = some s) hread
            · have hpq : p ≠ q := by
                rintro rfl
                exact hq ((mem_bufKeys rest p).mpr ⟨some c, hmem⟩)
              intro ev hev
              rcases List.mem_cons.mp hev with rfl | hev1
              · intro hc
                exact hpq ((show FsEvent.path (FsEvent.write q s) = p from hc).symm)
              · exact IH8 p c hmem (by rw [hWread p, if_neg hpq]; exact hrd) ev hev1
          · intro p hp
            rcases List.mem_cons.mp hp with heq | hmem
            · simp at heq
            · exact List.mem_cons_of_mem _ (IH9 p hmem)

/-! ### Staging-run lemmas -/

theorem runOp_ok_parts (st st2 : BufferedFilesystem × Disk) (op : StagingOp)
    (h : runOp st op = Except.ok st2) :
    st2.1.committed = st.1.committed ∧
    st2.1.buffer.isEmpty = (st.1.buffer.isEmpty && !op.isMutation) ∧
    (op.isMkdir = false → st2.2 = st.2) ∧
    ((bufKeys st.1.buffer).Nodup → (bufKeys st2.1.buffer).Nodup) := by
  obtain ⟨⟨buf, com⟩, d⟩ := st
  cases com with
  | true =>
    cases op <;>
      simp [runOp, BufferedFilesystem.writeFileSync, BufferedFilesystem.unlinkSync,
        BufferedFilesystem.readFileSync, BufferedFilesystem.existsSync,
        BufferedFilesystem.mkdirSync, BufferedFilesystem.assertNotComitted] at h
  | false =>
    cases op with
    | writeOp p c =>
      simp [runOp, BufferedFilesystem.writeFileSync,
        BufferedFilesystem.assertNotComitted] at h
      subst h
      exact ⟨rfl, by simp [StagingOp.isMutation, mapSet_not_isEmpty],
        fun _ => rfl, fun hnd => mapSet_nodup buf p (some c) hnd⟩
    | unlinkOp p =>
      simp [runOp, BufferedFilesystem.unlinkSync,
        BufferedFilesystem.assertNotComitted] at h
      subst h
      exact ⟨rfl, by simp [StagingOp.isMutation, mapSet_not_isEmpty],
        fun _ => rfl, fun hnd => mapSet_nodup buf p none hnd⟩
    | readOp p =>
      rw [show runOp (⟨buf, false⟩, d) (StagingOp.readOp p)
          = match BufferedFilesystem.readFileSync ⟨buf, false⟩ d p with
            | .error e => .error e
            | .ok _ => .ok (⟨buf, false⟩, d) from rfl] at h
      cases hrf : BufferedFilesystem.readFileSync ⟨buf, false⟩ d p with
      | error err => simp only [hrf] at h; exact Except.noConfusion h
      | ok s =>
        simp only [hrf] at h
        have h2 : st2 = (⟨buf, false⟩, d) := (Except.ok.inj h).symm
        subst h2
        exact ⟨rfl, by simp [StagingOp.isMutation], fun _ => rfl, fun hnd => hnd⟩
    | existsOp p =>
      rw [show runOp (⟨buf, false⟩, d) (StagingOp.existsOp p)
          = match BufferedFilesystem.existsSync ⟨buf, false⟩ d p with
            | .error e => .error e
            | .ok _ => .ok (⟨buf, false⟩, d) from rfl] at h
      cases hrf : BufferedFilesystem.existsSync ⟨buf, false⟩ d p with
      | error err => simp only [hrf] at h; exact Except.noConfusion h
      | ok b =>
        simp only [hrf] at h
        have h2 : st2 = (⟨buf, false⟩, d) := (Except.ok.inj h).symm
        subst h2
        exact ⟨rfl, by simp [StagingOp.isMutation], fun _ => rfl, fun hnd => hnd⟩
    | mkdirOp p =>
      rw [show runOp (⟨buf, false⟩, d) (StagingOp.mkdirOp p)
          = match BufferedFilesystem.mkdirSync ⟨buf, false⟩ d p with
            | .error e => .error e
            | .ok d2 => .ok (⟨buf, false⟩, d2) from rfl] at h
      cases hrf : BufferedFilesystem.mkdirSync ⟨buf, false⟩ d p with
      | error err => simp only [hrf] at h; exact Except.noConfusion h
      | ok d2 =>
        simp only [hrf] at h
        have h2 : st2 = (⟨buf, false⟩, d2) := (Except.ok.inj h).symm
        subst h2
        refine ⟨rfl, by simp [StagingOp.isMutation], ?_, fun hnd => hnd⟩
        intro hc
        exact absurd hc (by simp [StagingOp.isMkdir])

theorem runOps_ok_parts (st st2 : BufferedFilesystem × Disk)
    (ops : List StagingOp) (h : runOps st ops = Except.ok st2) :
    st2.1.committed = st.1.committed ∧
    st2.1.buffer.isEmpty = (st.1.buffer.isEmpty && !ops.any StagingOp.isMutation) ∧
    ((∀ op ∈ ops, op.isMkdir = false) → st2.2 = st.2) ∧
    ((bufKeys st.1.buffer).Nodup → (bufKeys st2.1.buffer).Nodup) := by
  induction ops generalizing st with
  | nil =>
    rw [show runOps st [] = Except.ok st from rfl] at h
    have h2 : st2 = st := (Except.ok.inj h).symm
    subst h2
    simp
  | cons op rest ih =>
    rw [show runOps st (op :: rest)
        = match runOp st op with
          | .error e => .error e
          | .ok stm => runOps stm rest from rfl] at h
    cases hop : runOp st op with
    | error err => simp only [hop] at h; exact Except.noConfusion h
    | ok stm =>
      simp only [hop] at h
      obtain ⟨P1, P2, P3, P4⟩ := runOp_ok_parts st stm op hop
      obtain ⟨Q1, Q2, Q3, Q4⟩ := ih stm h
      refine ⟨Q1.trans P1, ?_, ?_, fun hnd => Q4 (P4 hnd)⟩
      · rw [Q2, P2]
        simp [List.any_cons, Bool.not_or, Bool.and_assoc]
      · intro hmk
        have h1 := P3 (hmk op (List.mem_cons_self _ _))
        have h2 := Q3 (fun o ho => hmk o (List.mem_cons_of_mem _ ho))
        exact h2.trans h1

/-! ### Commit and getAddedRemovedFiles inversion -/

theorem commit_ok_inv (bfs : BufferedFilesystem) (d : Disk) (sc : Option Unit)
    (res : CommitResult) (h : bfs.commit d sc = Except.ok res) :
    bfs.committed = false ∧
    commitGo bfs.buffer d = Except.ok (res.added, res.removed, res.disk, res.events) ∧
    res.hookCalls = (if sc.isSome then [(res.added, res.removed)] else []) ∧
    res.fs = { bfs with committed := true } := by
  unfold BufferedFilesystem.commit BufferedFilesystem.assertNotComitted at h
  cases hc : bfs.committed with
  | true => rw [hc] at h; simp at h
  | false =>
    rw [hc] at h
    simp only [Bool.false_eq_true, if_false] at h
    cases hgo : commitGo bfs.buffer d with
    | error err => simp only [hgo] at h; exact Except.noConfusion h
    | ok res4 =>
      obtain ⟨a, r, d2, evs⟩ := res4
      simp only [hgo] at h
      have h2 := Except.ok.inj h
      subst h2
      exact ⟨rfl, rfl, rfl, rfl⟩

theorem garGo_spec (buf : Buffer) (d : Disk) :
    (∀ p, p ∈ (garGo buf d).1 ↔ ∃ c, (p, some c) ∈ buf ∧ fsExistsSync d p = false) ∧
    (∀ p, p ∈ (garGo buf d).2 ↔ (p, (none : Option String)) ∈ buf) := by
  induction buf with
  | nil => simp [garGo]
  | cons kv rest ih =>
    obtain ⟨q, dat⟩ := kv
    obtain ⟨ih1, ih2⟩ := ih
    cases dat with
    | none =>
      rw [show garGo ((q, none) :: rest) d
          = ((garGo rest d).1, q :: (garGo rest d).2) from rfl]
      constructor
      · intro p
        rw [show (((garGo rest d).1, q :: (garGo rest d).2) :
            List String × List String).1 = (garGo rest d).1 from rfl, ih1 p]
        constructor
        · rintro ⟨c, hc, he⟩
          exact ⟨c, List.mem_cons_of_mem _ hc, he⟩
        · rintro ⟨c, hc, he⟩
          rcases List.mem_cons.mp hc with heq | hmem
          · simp at heq
          · exact ⟨c, hmem, he⟩
      · intro p
        constructor
        · intro hp
          rcases List.mem_cons.mp hp with rfl | hp1
          · exact List.mem_cons_self _ _
          · exact List.mem_cons_of_mem _ ((ih2 p).mp hp1)
        · intro hp
          rcases List.mem_cons.mp hp with heq | hmem
          · rw [show p = q from congrArg Prod.fst heq]
            exact List.mem_cons_self _ _
          · exact List.mem_cons_of_mem _ ((ih2 p).mpr hmem)
    | some s =>
      by_cases hex : fsExistsSync d q
      · rw [show garGo ((q, some s) :: rest) d
            = if fsExistsSync d q then garGo rest d
              else (q :: (garGo rest d).1, (garGo rest d).2) from rfl, if_pos hex]
        constructor
        · intro p
          rw [ih1 p]
          constructor
          · rintro ⟨c, hc, he⟩
            exact ⟨c, List.mem_cons_of_mem _ hc, he⟩
          · rintro ⟨c, hc, he⟩
            rcases List.mem_cons.mp hc with heq | hmem
            · rw [show p = q from congrArg Prod.fst heq] at he
              rw [he] at hex
              exact absurd hex (by simp)
            · exact ⟨c, hmem, he⟩
        · intro p
          rw [ih2 p]
          constructor
          · exact fun hm => List.mem_cons_of_mem _ hm
          · intro hm
            rcases List.mem_cons.mp hm with heq | hmem
            · simp at heq
            · exact hmem
      · rw [show garGo ((q, some s) :: rest) d
            = if fsExistsSync d q then garGo rest d
              else (q :: (garGo rest d).1, (garGo rest d).2) from rfl, if_neg hex]
        constructor
        · intro p
          constructor
          · intro hp
            rcases List.mem_cons.mp hp with rfl | hp1
            · exact ⟨s, List.mem_cons_self _ _, by simpa using hex⟩
            · obtain ⟨c, hc, he⟩ := (ih1 p).mp hp1
              exact ⟨c, List.mem_cons_of_mem _ hc, he⟩
          · rintro ⟨c, hc, he⟩
            rcases List.mem_cons.mp hc with heq | hmem
            · rw [show p = q from congrArg Prod.fst heq]
              exact List.mem_cons_self _ _
            · exact List.mem_cons_of_mem _ ((ih1 p).mpr ⟨c, hmem, he⟩)
        · intro p
          rw [ih2 p]
          constructor
          · exact fun hm => List.mem_cons_of_mem _ hm
          · intro hm
            rcases List.mem_cons.mp hm with heq | hmem
            · simp at heq
            · exact hmem

theorem getAddedRemovedFiles_ok (bfs : BufferedFilesystem) (d : Disk)
    (pr : List String × List String)
    (h : bfs.getAddedRemovedFiles d = Except.ok pr) : pr = garGo bfs.buffer d := by
  unfold BufferedFilesystem.getAddedRemovedFiles BufferedFilesystem.assertNotComitted at h
  cases hc : bfs.committed with
  | true => rw [hc] at h; simp at h
  | false =>
    rw [hc] at h
    simp only [Bool.false_eq_true, if_false] at h
    exact (Except.ok.inj h).symm

/-! ### Concrete states used by witnesses and counterexamples -/

def emptyDisk : Disk := ⟨fun _ => none, fun _ => false⟩

def bfsW1 : BufferedFilesystem := ⟨[("a.out", some "X")], false⟩

def resW1 : CommitResult :=
  { fs := { buffer := [("a.out", some "X")], committed := true }
    disk := fsWriteFileSync emptyDisk "a.out" "X"
    added := ["a.out"]
    removed := []
    hookCalls := [(["a.out"], [])]
    events := [FsEvent.write "a.out" "X"] }

def diskC1 : Disk := ⟨fun p => if p = "p.txt" then some "Y" else none, fun _ => false⟩

def bfsC1 : BufferedFilesystem := ⟨[("p.txt", some "X")], false⟩

/-! ### Claim theorems -/

/-- C1 counterexample: `p.txt` already exists on disk with content "Y" and a
write of "X" is staged; `commit()` reports it in `added` and passes it to the
source-control hook, contradicting the claim that a staged write to a path
that already exists on disk (with different content) is never reported in
`added`. -/
theorem C1_counterexample :
    fsExistsSync diskC1 "p.txt" = true ∧
    Except.map CommitResult.added (BufferedFilesystem.commit bfsC1 diskC1 (some ()))
      = Except.ok ["p.txt"] ∧
    Except.map CommitResult.hookCalls (BufferedFilesystem.commit bfsC1 diskC1 (some ()))
      = Except.ok [(["p.txt"], [])] :=
  ⟨rfl, rfl, rfl⟩

/-- C1 (amended): on a successful `commit()` of a staged filesystem whose
buffer has one entry per path, the `added` list (also passed, together with
`removed`, to the source-control hook) contains exactly the staged-write
paths whose staged content differs from the current on-disk content — this
includes every staged new path (so the `a.out` scenario holds and the final
disk carries every staged content), and also existing paths staged with
different content; the pre-commit `getAddedRemovedFiles()` report contains
exactly the staged-write paths absent from disk. -/
theorem C1_commit_added_spec (bfs : BufferedFilesystem) (d : Disk)
    (sc : Option Unit) (res : CommitResult)
    (hnd : (bufKeys bfs.buffer).Nodup)
    (h : bfs.commit d sc = Except.ok res) :
    (∀ p, p ∈ res.added ↔ ∃ c, (p, some c) ∈ bfs.buffer ∧ d.read p ≠ some c) ∧
    res.hookCalls = (if sc.isSome then [(res.added, res.removed)] else []) ∧
    (∀ p c, (p, some c) ∈ bfs.buffer → res.disk.read p = some c) ∧
    (∀ pr, bfs.getAddedRemovedFiles d = Except.ok pr →
      ∀ p, p ∈ pr.1 ↔ ∃ c, (p, some c) ∈ bfs.buffer ∧ fsExistsSync d p = false) := by
  obtain ⟨hc, hgo, hhook, hfs⟩ := commit_ok_inv bfs d sc res h
  obtain ⟨S1, S2, S3, S4, S5, S6, S7, S8, S9⟩ :=
    commitGo_ok_spec bfs.buffer d res.added res.removed res.disk res.events hnd hgo
  refine ⟨S1, hhook, S4, ?_⟩
  intro pr hpr p
  rw [getAddedRemovedFiles_ok bfs d pr hpr]
  exact (garGo_spec bfs.buffer d).1 p

/-- C1 witness: the `a.out` scenario, evaluated concretely. -/
theorem C1_commit_added_spec_witness :
    (bufKeys bfsW1.buffer).Nodup ∧
    BufferedFilesystem.commit bfsW1 emptyDisk (some ()) = Except.ok resW1 ∧
    ("a.out" ∈ resW1.added ↔
      ∃ c, ("a.out", some c) ∈ bfsW1.buffer ∧ emptyDisk.read "a.out" ≠ some c) :=
  ⟨by simp [bfsW1, bufKeys], rfl,
   (C1_commit_added_spec bfsW1 emptyDisk (some ()) resW1
     (by simp [bfsW1, bufKeys]) rfl).1 "a.out"⟩

/-- C2: once `committed` is set, every operation of the interface
(readFileSync, writeFileSync, unlinkSync, existsSync, statSync, mkdirSync,
hasChanges, getAddedRemovedFiles) fails with the contract-violation
invariant error, and a second `commit()` — in particular on the state a
successful `commit()` returns — likewise fails. -/
theorem C2_no_ops_after_commit (bfs : BufferedFilesystem) (d : Disk)
    (p c : String) (sc : Option Unit) (h : bfs.committed = true) :
    bfs.readFileSync d p = Except.error (FsError.invariantViolation noOpsAfterCommitMsg) ∧
    bfs.writeFileSync p c = Except.error (FsError.invariantViolation noOpsAfterCommitMsg) ∧
    bfs.unlinkSync p = Except.error (FsError.invariantViolation noOpsAfterCommitMsg) ∧
    bfs.existsSync d p = Except.error (FsError.invariantViolation noOpsAfterCommitMsg) ∧
    bfs.statSync d p = Except.error (FsError.invariantViolation noOpsAfterCommitMsg) ∧
    bfs.mkdirSync d p = Except.error (FsError.invariantViolation noOpsAfterCommitMsg) ∧
    bfs.hasChanges = Except.error (FsError.invariantViolation noOpsAfterCommitMsg) ∧
    bfs.getAddedRemovedFiles d = Except.error (FsError.invariantViolation noOpsAfterCommitMsg) ∧
    bfs.commit d sc = Except.error (FsError.invariantViolation noOpsAfterCommitMsg) ∧
    (∀ (b0 : BufferedFilesystem) (d0 d1 : Disk) (s0 s1 : Option Unit) (res : CommitResult),
      b0.commit d0 s0 = Except.ok res →
      res.fs.commit d1 s1 = Except.error (FsError.invariantViolation noOpsAfterCommitMsg)) := by
  refine ⟨?_, ?_, ?_, ?_, ?_, ?_, ?_, ?_, ?_, ?_⟩
  · simp [BufferedFilesystem.readFileSync, BufferedFilesystem.assertNotComitted, h]
  · simp [BufferedFilesystem.writeFileSync, BufferedFilesystem.assertNotComitted, h]
  · simp [BufferedFilesystem.unlinkSync, BufferedFilesystem.assertNotComitted, h]
  · simp [BufferedFilesystem.existsSync, BufferedFilesystem.assertNotComitted, h]
  · simp [BufferedFilesystem.statSync, BufferedFilesystem.assertNotComitted, h]
  · simp [BufferedFilesystem.mkdirSync, BufferedFilesystem.assertNotComitted, h]
  · simp [BufferedFilesystem.hasChanges, BufferedFilesystem.assertNotComitted, h]
  · simp [BufferedFilesystem.getAddedRemovedFiles, BufferedFilesystem.assertNotComitted, h]
  · simp [BufferedFilesystem.commit, BufferedFilesystem.assertNotComitted, h]
  · intro b0 d0 d1 s0 s1 res hres
    obtain ⟨_, _, _, hfs⟩ := commit_ok_inv b0 d0 s0 res hres
    rw [hfs]
    simp [BufferedFilesystem.commit, BufferedFilesystem.assertNotComitted]

/-- C2 witness: a committed state, with `hasChanges` failing concretely. -/
theorem C2_no_ops_after_commit_witness :
    (BufferedFilesystem.mk [] true).committed = true ∧
    BufferedFilesystem.hasChanges (BufferedFilesystem.mk [] true)
      = Except.error (FsError.invariantViolation noOpsAfterCommitMsg) :=
  ⟨rfl, (C2_no_ops_after_commit (BufferedFilesystem.mk [] true) emptyDisk "x" "y"
    none rfl).2.2.2.2.2.2.1⟩

def bfsW3 : BufferedFilesystem := ⟨[("b.out", some "Y")], false⟩

def diskW3 : Disk := ⟨fun p => if p = "b.out" then some "Y" else none, fun _ => false⟩

def resW3 : CommitResult :=
  { fs := { buffer := [("b.out", some "Y")], committed := true }
    disk := diskW3
    added := []
    removed := []
    hookCalls := []
    events := [] }

/-- C3: a staged write whose content equals the on-disk content at commit
time (the comparison reads the disk threaded through the commit loop, not a
snapshot) causes no physical effect, and the path is excluded from both
`added` and `removed`; the file keeps its content. -/
theorem C3_unchanged_write_skipped (bfs : BufferedFilesystem) (d : Disk)
    (sc : Option Unit) (res : CommitResult) (p c : String)
    (hnd : (bufKeys bfs.buffer).Nodup)
    (hmem : (p, some c) ∈ bfs.buffer)
    (hdisk : d.read p = some c)
    (h : bfs.commit d sc = Except.ok res) :
    (∀ ev ∈ res.events, FsEvent.path ev ≠ p) ∧
    p ∉ res.added ∧ p ∉ res.removed ∧ res.disk.read p = some c := by
  obtain ⟨hc, hgo, hhook, hfs⟩ := commit_ok_inv bfs d sc res h
  obtain ⟨S1, S2, S3, S4, S5, S6, S7, S8, S9⟩ :=
    commitGo_ok_spec bfs.buffer d res.added res.removed res.disk res.events hnd hgo
  refine ⟨S8 p c hmem hdisk, ?_, ?_, S4 p c hmem⟩
  · intro hp
    obtain ⟨c2, hc2, hcd⟩ := (S1 p).mp hp
    have h1 := mem_mapGet bfs.buffer p (some c) hnd hmem
    have h2 := mem_mapGet bfs.buffer p (some c2) hnd hc2
    rw [h1] at h2
    have hcc : c = c2 := Option.some.inj (Option.some.inj h2)
    rw [← hcc] at hcd
    exact hcd hdisk
  · intro hp
    have hn := (S2 p).mp hp
    have h1 := mem_mapGet bfs.buffer p (some c) hnd hmem
    have h2 := mem_mapGet bfs.buffer p none hnd hn
    rw [h1] at h2
    exact Option.noConfusion (Option.some.inj h2)

/-- C3 witness: the `b.out` scenario, evaluated concretely. -/
theorem C3_unchanged_write_skipped_witness :
    ((bufKeys bfsW3.buffer).Nodup ∧ ("b.out", some "Y") ∈ bfsW3.buffer ∧
      diskW3.read "b.out" = some "Y" ∧
      BufferedFilesystem.commit bfsW3 diskW3 none = Except.ok resW3) ∧
    "b.out" ∉ resW3.added :=
  ⟨⟨by simp [bfsW3, bufKeys], by simp [bfsW3], rfl, rfl⟩,
   (C3_unchanged_write_skipped bfsW3 diskW3 none resW3 "b.out" "Y"
      (by simp [bfsW3, bufKeys]) (by simp [bfsW3]) rfl rfl).2.1⟩

def bfsW4 : BufferedFilesystem := ⟨[("c.out", none)], false⟩

def diskW4 : Disk := ⟨fun p => if p = "c.out" then some "Z" else none, fun _ => false⟩

def resW4 : CommitResult :=
  { fs := { buffer := [("c.out", none)], committed := true }
    disk := { diskW4 with files := fun q => if q = "c.out" then none else diskW4.files q }
    added := []
    removed := ["c.out"]
    hookCalls := [([], ["c.out"])]
    events := [FsEvent.unlink "c.out"] }

/-- C4: a path staged as a deletion is physically unlinked by `commit()`,
reported in `removed`, and the source-control hook (when configured) is
invoked exactly once with exactly the computed `added` and `removed` lists. -/
theorem C4_staged_deletion (bfs : BufferedFilesystem) (d : Disk)
    (sc : Option Unit) (res : CommitResult) (p : String)
    (hnd : (bufKeys bfs.buffer).Nodup)
    (hmem : (p, (none : Option String)) ∈ bfs.buffer)
    (h : bfs.commit d sc = Except.ok res) :
    p ∈ res.removed ∧ res.disk.read p = none ∧ FsEvent.unlink p ∈ res.events ∧
    res.hookCalls = (if sc.isSome then [(res.added, res.removed)] else []) := by
  obtain ⟨hc, hgo, hhook, hfs⟩ := commit_ok_inv bfs d sc res h
  obtain ⟨S1, S2, S3, S4, S5, S6, S7, S8, S9⟩ :=
    commitGo_ok_spec bfs.buffer d res.added res.removed res.disk res.events hnd hgo
  exact ⟨(S2 p).mpr hmem, S5 p hmem, S9 p hmem, hhook⟩

/-- C4 witness: the `c.out` scenario, evaluated concretely, with the hook
invoked once with `([], ["c.out"])`. -/
theorem C4_staged_deletion_witness :
    ((bufKeys bfsW4.buffer).Nodup ∧ ("c.out", (none : Option String)) ∈ bfsW4.buffer ∧
      BufferedFilesystem.commit bfsW4 diskW4 (some ()) = Except.ok resW4) ∧
    "c.out" ∈ resW4.removed ∧ resW4.hookCalls = [(resW4.added, resW4.removed)] :=
  ⟨⟨by simp [bfsW4, bufKeys], by simp [bfsW4], rfl⟩,
   (C4_staged_deletion bfsW4 diskW4 (some ()) resW4 "c.out"
      (by simp [bfsW4, bufKeys]) (by simp [bfsW4]) rfl).1,
   (C4_staged_deletion bfsW4 diskW4 (some ()) resW4 "c.out"
      (by simp [bfsW4, bufKeys]) (by simp [bfsW4]) rfl).2.2.2⟩

theorem mapHas_of_mapGet (m : Buffer) (p : String) (v : Option String)
    (h : mapGet m p = some v) : mapHas m p = true :=
  (mapHas_iff m p).mpr ((mem_bufKeys m p).mpr ⟨v, mapGet_eq_some_mem m p v h⟩)

theorem mapHas_eq_false_of_none (m : Buffer) (p : String)
    (h : mapGet m p = none) : mapHas m p = false := by
  cases hb : mapHas m p with
  | false => rfl
  | true => exact absurd ((mapHas_iff m p).mp hb) ((mapGet_eq_none_iff m p).mp h)

def diskC5 : Disk := ⟨fun p => if p = "d.out" then some "C" else none, fun _ => false⟩

def bfsC5 : BufferedFilesystem := ⟨[("d.out", none)], false⟩

/-- C5 counterexample: `d.out` exists on disk with content "C" but is staged
as deleted; `readFileSync` fails with the `invariant` contract error
("trying to read deleted file"), which is a different outcome from the
not-found error the claim states. -/
theorem C5_counterexample :
    diskC5.read "d.out" = some "C" ∧
    BufferedFilesystem.readFileSync bfsC5 diskC5 "d.out"
      = Except.error (FsError.invariantViolation readDeletedMsg) ∧
    Except.error (FsError.invariantViolation readDeletedMsg)
      ≠ (Except.error (FsError.notFound "d.out") : Except FsError String) :=
  ⟨rfl, rfl, fun hc => FsError.noConfusion (Except.error.inj hc)⟩

/-- C5 (amended): during staging, `readFileSync` returns the staged content
for a pending write and falls through to the real filesystem for unstaged
paths; for a path staged as deleted it fails — with the invariant-violation
contract error "trying to read deleted file", not a not-found outcome —
rather than returning on-disk content; `existsSync` returns false for a path
staged as deleted and falls through to the real filesystem for unstaged
paths. -/
theorem C5_staging_read_exists (bfs : BufferedFilesystem) (d : Disk)
    (h : bfs.committed = false) :
    (∀ p c, mapGet bfs.buffer p = some (some c) →
      bfs.readFileSync d p = Except.ok c) ∧
    (∀ p, mapGet bfs.buffer p = none →
      bfs.readFileSync d p = fsReadFileSync d p) ∧
    (∀ p, mapGet bfs.buffer p = some none →
      bfs.readFileSync d p = Except.error (FsError.invariantViolation readDeletedMsg)) ∧
    (∀ p, mapGet bfs.buffer p = some none → bfs.existsSync d p = Except.ok false) ∧
    (∀ p, mapGet bfs.buffer p = none →
      bfs.existsSync d p = Except.ok (fsExistsSync d p)) := by
  refine ⟨?_, ?_, ?_, ?_, ?_⟩
  · intro p c hg
    simp [BufferedFilesystem.readFileSync, BufferedFilesystem.assertNotComitted, h,
      mapHas_of_mapGet bfs.buffer p (some c) hg, hg]
  · intro p hg
    simp [BufferedFilesystem.readFileSync, BufferedFilesystem.assertNotComitted, h,
      mapHas_eq_false_of_none bfs.buffer p hg]
  · intro p hg
    simp [BufferedFilesystem.readFileSync, BufferedFilesystem.assertNotComitted, h,
      mapHas_of_mapGet bfs.buffer p none hg, hg]
  · intro p hg
    simp [BufferedFilesystem.existsSync, BufferedFilesystem.assertNotComitted, h,
      mapHas_of_mapGet bfs.buffer p none hg, hg, jsTruthy]
  · intro p hg
    simp [BufferedFilesystem.existsSync, BufferedFilesystem.assertNotComitted, h,
      mapHas_eq_false_of_none bfs.buffer p hg]

def bfsW5 : BufferedFilesystem := ⟨[("s.out", some "V"), ("del.out", none)], false⟩

/-- C5 witness: staged read and staged-deleted existence, evaluated concretely. -/
theorem C5_staging_read_exists_witness :
    bfsW5.committed = false ∧
    BufferedFilesystem.readFileSync bfsW5 emptyDisk "s.out" = Except.ok "V" ∧
    BufferedFilesystem.existsSync bfsW5 emptyDisk "del.out" = Except.ok false :=
  ⟨rfl, (C5_staging_read_exists bfsW5 emptyDisk rfl).1 "s.out" "V" rfl,
   (C5_staging_read_exists bfsW5 emptyDisk rfl).2.2.2.1 "del.out" rfl⟩

/-- C6: commit is deterministic — two staged filesystems with the same
buffer, both uncommitted, produce identical commit outcomes (same added,
removed, hook calls, and final disk) against the same on-disk state. -/
theorem C6_commit_deterministic (b1 b2 : BufferedFilesystem) (d : Disk)
    (sc : Option Unit) (hbuf : b1.buffer = b2.buffer)
    (h1 : b1.committed = false) (h2 : b2.committed = false) :
    b1.commit d sc = b2.commit d sc := by
  have heq : b1 = b2 := by
    obtain ⟨buf1, com1⟩ := b1
    obtain ⟨buf2, com2⟩ := b2
    simp only [BufferedFilesystem.mk.injEq]
    constructor
    · simpa using hbuf
    · rw [show com1 = false from by simpa using h1,
          show com2 = false from by simpa using h2]
  rw [heq]

def bfsW6a : BufferedFilesystem := ⟨[("w.out", some "1")], false⟩

def bfsW6b : BufferedFilesystem := ⟨[("w.out", some "1")], false⟩

/-- C6 witness: two states with equal buffers commit identically. -/
theorem C6_commit_deterministic_witness :
    bfsW6a.buffer = bfsW6b.buffer ∧ bfsW6a.committed = false ∧
    bfsW6b.committed = false ∧
    BufferedFilesystem.commit bfsW6a emptyDisk none
      = BufferedFilesystem.commit bfsW6b emptyDisk none :=
  ⟨rfl, rfl, rfl, C6_commit_deterministic bfsW6a bfsW6b emptyDisk none rfl rfl rfl⟩

/-- C7 counterexample: `mkdirSync` during staging immediately creates the
directory on the real filesystem, so staging is not fully buffered. -/
theorem C7_counterexample :
    emptyDisk.dirs "gen" = false ∧
    Except.map (fun st => st.2.dirs "gen")
      (runOp (BufferedFilesystem.mk [] false, emptyDisk) (StagingOp.mkdirOp "gen"))
      = Except.ok true :=
  ⟨rfl, rfl⟩

/-- C7 (amended): every sequence of staging operations that contains no
`mkdirSync` (writes, unlinks, reads, existence checks) leaves the real
filesystem unchanged — an abandoned run has no externally visible effect;
`mkdirSync`, however, is an immediate pass-through to the real filesystem. -/
theorem C7_staging_preserves_disk (bfs : BufferedFilesystem) (d : Disk)
    (ops : List StagingOp) (st2 : BufferedFilesystem × Disk)
    (hmk : ∀ op ∈ ops, op.isMkdir = false)
    (h : runOps (bfs, d) ops = Except.ok st2) : st2.2 = d :=
  (runOps_ok_parts (bfs, d) st2 ops h).2.2.1 hmk

def opsW7 : List StagingOp :=
  [StagingOp.writeOp "a.out" "X", StagingOp.existsOp "a.out",
   StagingOp.readOp "a.out", StagingOp.unlinkOp "a.out"]

/-- C7 witness: a run of mkdir-free staging operations, evaluated concretely. -/
theorem C7_staging_preserves_disk_witness :
    (∀ op ∈ opsW7, op.isMkdir = false) ∧
    runOps (BufferedFilesystem.mk [] false, emptyDisk) opsW7
      = Except.ok (BufferedFilesystem.mk [("a.out", none)] false, emptyDisk) ∧
    (BufferedFilesystem.mk [("a.out", none)] false, emptyDisk).2 = emptyDisk :=
  ⟨by decide, rfl,
   C7_staging_preserves_disk (BufferedFilesystem.mk [] false) emptyDisk opsW7
     (BufferedFilesystem.mk [("a.out", none)] false, emptyDisk) (by decide) rfl⟩

/-- C8: starting from a fresh staged filesystem, after any successful
sequence of staging operations `hasChanges()` returns true exactly when the
sequence staged at least one write or unlink — independently of the on-disk
contents, so it is true even when every staged write matches the disk. -/
theorem C8_hasChanges_iff_staged (d : Disk) (ops : List StagingOp)
    (st2 : BufferedFilesystem × Disk)
    (h : runOps (BufferedFilesystem.mk [] false, d) ops = Except.ok st2) :
    st2.1.hasChanges = Except.ok (ops.any StagingOp.isMutation) := by
  obtain ⟨Q1, Q2, _, _⟩ := runOps_ok_parts _ _ _ h
  have hc : st2.1.committed = false := by rw [Q1]
  have hb : st2.1.buffer.isEmpty = !ops.any StagingOp.isMutation := by
    rw [Q2]
    simp
  unfold BufferedFilesystem.hasChanges BufferedFilesystem.assertNotComitted
  rw [hc]
  simp [hb]

def diskW8 : Disk := ⟨fun p => if p = "b.out" then some "Y" else none, fun _ => false⟩

def opsW8 : List StagingOp := [StagingOp.writeOp "b.out" "Y"]

/-- C8 witness: staging a write whose content equals the on-disk content
still makes `hasChanges` true. -/
theorem C8_hasChanges_iff_staged_witness :
    runOps (BufferedFilesystem.mk [] false, diskW8) opsW8
      = Except.ok (BufferedFilesystem.mk [("b.out", some "Y")] false, diskW8) ∧
    diskW8.read "b.out" = some "Y" ∧
    BufferedFilesystem.hasChanges (BufferedFilesystem.mk [("b.out", some "Y")] false)
      = Except.ok true :=
  ⟨rfl, rfl,
   (C8_hasChanges_iff_staged diskW8 opsW8
      (BufferedFilesystem.mk [("b.out", some "Y")] false, diskW8) rfl).trans rfl⟩

/-- C9: a staged write of the empty string makes `existsSync` return false
(JS truthiness of the staged value) even though the pending write exists and
`readFileSync` returns the empty string. -/
theorem C9_empty_staged_write (bfs : BufferedFilesystem) (d : Disk) (p : String)
    (h : bfs.committed = false)
    (hg : mapGet bfs.buffer p = some (some "")) :
    bfs.existsSync d p = Except.ok false ∧ bfs.readFileSync d p = Except.ok "" := by
  constructor
  · simp [BufferedFilesystem.existsSync, BufferedFilesystem.assertNotComitted, h,
      mapHas_of_mapGet bfs.buffer p (some "") hg, hg, jsTruthy]
    rfl
  · simp [BufferedFilesystem.readFileSync, BufferedFilesystem.assertNotComitted, h,
      mapHas_of_mapGet bfs.buffer p (some "") hg, hg]

def bfsW9 : BufferedFilesystem := ⟨[("e.out", some "")], false⟩

/-- C9 witness: the empty-string staged write, evaluated concretely. -/
theorem C9_empty_staged_write_witness :
    bfsW9.committed = false ∧ mapGet bfsW9.buffer "e.out" = some (some "") ∧
    BufferedFilesystem.existsSync bfsW9 emptyDisk "e.out" = Except.ok false :=
  ⟨rfl, rfl, (C9_empty_staged_write bfsW9 emptyDisk "e.out" rfl rfl).1⟩

theorem unlinkSync_ok_buffer (bfs b : BufferedFilesystem) (p : String)
    (h : bfs.unlinkSync p = Except.ok b) :
    b.buffer = mapSet bfs.buffer p none := by
  unfold BufferedFilesystem.unlinkSync BufferedFilesystem.assertNotComitted at h
  cases hc : bfs.committed with
  | true => rw [hc] at h; simp at h
  | false =>
    rw [hc] at h
    simp only [Bool.false_eq_true, if_false] at h
    have h2 := Except.ok.inj h
    rw [← h2]

theorem writeFileSync_ok_buffer (bfs b : BufferedFilesystem) (p c : String)
    (h : bfs.writeFileSync p c = Except.ok b) :
    b.buffer = mapSet bfs.buffer p (some c) := by
  unfold BufferedFilesystem.writeFileSync BufferedFilesystem.assertNotComitted at h
  cases hc : bfs.committed with
  | true => rw [hc] at h; simp at h
  | false =>
    rw [hc] at h
    simp only [Bool.false_eq_true, if_false] at h
    have h2 := Except.ok.inj h
    rw [← h2]

/-- C10: the buffer keeps one entry per path, holding the most recent staged
operation: a write after an unlink on the same path leaves a pending write,
an unlink after a write leaves a pending deletion; commit applies at most
one physical effect per path; and running staging operations preserves the
one-entry-per-path invariant of the buffer. -/
theorem C10_last_staged_op_wins (bfs b1 b2 b3 b4 : BufferedFilesystem) (p c : String)
    (hu : bfs.unlinkSync p = Except.ok b1)
    (hw : b1.writeFileSync p c = Except.ok b2)
    (hw2 : bfs.writeFileSync p c = Except.ok b3)
    (hu2 : b3.unlinkSync p = Except.ok b4) :
    (mapGet b1.buffer p = some none ∧ mapGet b2.buffer p = some (some c)) ∧
    (mapGet b3.buffer p = some (some c) ∧ mapGet b4.buffer p = some none) ∧
    (∀ (bb : BufferedFilesystem) (d : Disk) (sc : Option Unit) (res : CommitResult),
      (bufKeys bb.buffer).Nodup → bb.commit d sc = Except.ok res →
      ∀ q, res.events.countP (fun ev => ev.path == q) ≤ 1) ∧
    (∀ (st st2 : BufferedFilesystem × Disk) (ops : List StagingOp),
      (bufKeys st.1.buffer).Nodup → runOps st ops = Except.ok st2 →
      (bufKeys st2.1.buffer).Nodup) := by
  refine ⟨⟨?_, ?_⟩, ⟨?_, ?_⟩, ?_, ?_⟩
  · rw [unlinkSync_ok_buffer bfs b1 p hu]
    exact mapGet_mapSet_self bfs.buffer p none
  · rw [writeFileSync_ok_buffer b1 b2 p c hw]
    exact mapGet_mapSet_self b1.buffer p (some c)
  · rw [writeFileSync_ok_buffer bfs b3 p c hw2]
    exact mapGet_mapSet_self bfs.buffer p (some c)
  · rw [unlinkSync_ok_buffer b3 b4 p hu2]
    exact mapGet_mapSet_self b3.buffer p none
  · intro bb d sc res hnd hres q
    obtain ⟨hc, hgo, hhook, hfs⟩ := commit_ok_inv bb d sc res hres
    obtain ⟨S1, S2, S3, S4, S5, S6, S7, S8, S9⟩ :=
      commitGo_ok_spec bb.buffer d res.added res.removed res.disk res.events hnd hgo
    exact S7 q
  · intro st st2 ops hnd hrun
    exact (runOps_ok_parts st st2 ops hrun).2.2.2 hnd

/-- C10 witness: unlink-then-write and write-then-unlink on the same path,
evaluated concretely. -/
theorem C10_last_staged_op_wins_witness :
    (BufferedFilesystem.unlinkSync (BufferedFilesystem.mk [] false) "f.out"
      = Except.ok (BufferedFilesystem.mk [("f.out", none)] false) ∧
     BufferedFilesystem.writeFileSync (BufferedFilesystem.mk [("f.out", none)] false) "f.out" "K"
      = Except.ok (BufferedFilesystem.mk [("f.out", some "K")] false) ∧
     BufferedFilesystem.writeFileSync (BufferedFilesystem.mk [] false) "f.out" "K"
      = Except.ok (BufferedFilesystem.mk [("f.out", some "K")] false) ∧
     BufferedFilesystem.unlinkSync (BufferedFilesystem.mk [("f.out", some "K")] false) "f.out"
      = Except.ok (BufferedFilesystem.mk [("f.out", none)] false)) ∧
    mapGet (BufferedFilesystem.mk [("f.out", some "K")] false).buffer "f.out"
      = some (some "K") :=
  ⟨⟨rfl, rfl, rfl, rfl⟩,
   (C10_last_staged_op_wins (BufferedFilesystem.mk [] false)
      (BufferedFilesystem.mk [("f.out", none)] false)
      (BufferedFilesystem.mk [("f.out", some "K")] false)
      (BufferedFilesystem.mk [("f.out", some "K")] false)
      (BufferedFilesystem.mk [("f.out", none)] false)
      "f.out" "K" rfl rfl rfl rfl).1.2⟩
